import Mathlib

/-!
Verification of the snake mini-game simulation core of the Denno news-digest
application (src/components/SnakeGame.tsx and its sibling copy of the same
component, which additionally carries the rejection-sampling food spawner and
omits the early return on self-collision), together with the Fisher-Yates
`shuffleArray` helper of the digest service.

The embedding follows the source line by line: JavaScript floating-point
numbers are modelled as real numbers, the per-frame callback becomes the
`tick` function on an explicit `GameState`, `Math.random()` draws become
streams of values in `[0, 1)` passed as parameters, and the `while` loops of
the angle normalization and of the spawner become well-founded recursive
functions with the loop guard as the recursion condition.
-/

namespace Snake

open Real

/-- Configuration constant `SPEED = 2.5` of the game component. -/
def SPEED : ℝ := 2.5

/-- Configuration constant `TURN_SPEED = 0.15` of the game component. -/
def TURN_SPEED : ℝ := 0.15

/-- Configuration constant `TAIL_LENGTH = 20` of the game component. -/
def TAIL_LENGTH : ℕ := 20

/-- Configuration constant `GROWTH_PER_FOOD = 10` of the game component. -/
def GROWTH_PER_FOOD : ℕ := 10

/-- Configuration constant `SEGMENT_SPACING = 4` of the game component. -/
def SEGMENT_SPACING : ℕ := 4

/-- The `Point` interface of the game component: a 2D coordinate. -/
structure Point where
  x : ℝ
  y : ℝ

/-- Euclidean distance as computed at the three distance checks of the loop:
`Math.sqrt(dx*dx + dy*dy)` respectively `Math.sqrt(Math.pow(..,2) + Math.pow(..,2))`. -/
noncomputable def ptDist (p q : Point) : ℝ :=
  Real.sqrt ((p.x - q.x) ^ 2 + (p.y - q.y) ^ 2)

/-- First normalization loop of the heading update:
`while (diff <= -Math.PI) diff += Math.PI * 2;`. -/
noncomputable def normLoopA (d : ℝ) : ℝ :=
  if h : d ≤ -π then normLoopA (d + 2 * π) else d
termination_by (⌈(-π - d) / (2 * π)⌉ + 1).toNat
decreasing_by
  have hpi : (0:ℝ) < π := Real.pi_pos
  have h2 : (0:ℝ) < 2 * π := by linarith
  have hnum : (-π - (d + 2 * π)) / (2 * π) = (-π - d) / (2 * π) - 1 := by
    field_simp
    ring
  have hc : (0:ℤ) ≤ ⌈(-π - d) / (2 * π)⌉ :=
    Int.ceil_nonneg (div_nonneg (by linarith) (le_of_lt h2))
  rw [hnum, Int.ceil_sub_one]
  omega

/-- Second normalization loop of the heading update:
`while (diff > Math.PI) diff -= Math.PI * 2;`. -/
noncomputable def normLoopB (d : ℝ) : ℝ :=
  if h : π < d then normLoopB (d - 2 * π) else d
termination_by (⌈(d - π) / (2 * π)⌉).toNat
decreasing_by
  have hpi : (0:ℝ) < π := Real.pi_pos
  have h2 : (0:ℝ) < 2 * π := by linarith
  have hnum : (d - 2 * π - π) / (2 * π) = (d - π) / (2 * π) - 1 := by
    field_simp
    ring
  have hc : (1:ℤ) ≤ ⌈(d - π) / (2 * π)⌉ :=
    Int.ceil_pos.mpr (div_pos (by linarith) h2)
  rw [hnum, Int.ceil_sub_one]
  omega

/-- The two sequential normalization loops applied to `targetAngle - angle`
in step 1 of the game loop. -/
noncomputable def normalizeDiff (d : ℝ) : ℝ := normLoopB (normLoopA d)

/-- The heading easing step of the game loop:
`angle.current += diff * TURN_SPEED` after the two normalization loops. -/
noncomputable def angleStep (a t : ℝ) : ℝ :=
  a + normalizeDiff (t - a) * TURN_SPEED

/-- The target angle reached along the shorter arc chosen by the
normalization: the representative of `t` that is congruent to `t` modulo `2π`
and lies in `(a - π, a + π]`. -/
noncomputable def shortTarget (a t : ℝ) : ℝ :=
  a + normalizeDiff (t - a)

/-- `x` lies strictly between `a` and the short-arc representative of `t`. -/
noncomputable def StrictBetweenArc (a t x : ℝ) : Prop :=
  min a (shortTarget a t) < x ∧ x < max a (shortTarget a t)

/-- The mutable refs of the component gathered into one state record:
`width`/`height`, `pos`, `angle`, `targetAngle`, `history`, `food`, `score`
and the `isPlayingRef` flag. -/
structure GameState where
  w : ℝ
  h : ℝ
  pos : Point
  angle : ℝ
  target : ℝ
  hist : List Point
  food : Point
  score : ℕ
  playing : Bool

/-- The `margin = 20` local constant of `spawnFood`. -/
def margin : ℝ := 20

/-- The `forbiddenW = 340` local constant of `spawnFood`. -/
def forbiddenW : ℝ := 340

/-- The `forbiddenH = 250` local constant of `spawnFood`. -/
def forbiddenH : ℝ := 250

/-- One random candidate of `spawnFood`:
`margin + Math.random() * (dimension - 2 * margin)` on each axis, for one
pair of `Math.random()` draws. -/
def spawnAttempt (r : ℝ × ℝ) (w h : ℝ) : Point :=
  ⟨margin + r.1 * (w - 2 * margin), margin + r.2 * (h - 2 * margin)⟩

/-- The forbidden-zone test of `spawnFood`: `inBoxX && inBoxY` for the
centered `forbiddenW × forbiddenH` rectangle. -/
def InForbiddenZone (p : Point) (w h : ℝ) : Prop :=
  (p.x > w / 2 - forbiddenW / 2 ∧ p.x < w / 2 + forbiddenW / 2) ∧
    (p.y > h / 2 - forbiddenH / 2 ∧ p.y < h / 2 + forbiddenH / 2)

open Classical in
/-- The rejection-sampling loop of `spawnFood`, starting at attempt `k`:
`while (!valid && attempts < 100)` draws a candidate and accepts it unless it
lies in the forbidden zone; when all 100 attempts are rejected the corner
fallback `(margin, margin)` is used.  The `Math.random()` pairs are supplied
by the stream `rands`. -/
noncomputable def spawnFrom (rands : ℕ → ℝ × ℝ) (w h : ℝ) (k : ℕ) : Point :=
  if hk : k < 100 then
    if InForbiddenZone (spawnAttempt (rands k) w h) w h then
      spawnFrom rands w h (k + 1)
    else spawnAttempt (rands k) w h
  else ⟨margin, margin⟩
termination_by 100 - k
decreasing_by omega

/-- The `spawnFood` procedure of the game component (the variant with the
forbidden-zone rejection sampling): the loop entered at attempt `0`. -/
noncomputable def spawnFood (rands : ℕ → ℝ × ℝ) (w h : ℝ) : Point :=
  spawnFrom rands w h 0

/-- The start position of `initGame`:
`width > 0 ? width - 50 : 300` and `height > 0 ? height - 30 : 500`. -/
noncomputable def startPos (w h : ℝ) : Point :=
  ⟨if w > 0 then w - 50 else 300, if h > 0 then h - 30 else 500⟩

/-- The initial straight tail of `initGame`: `TAIL_LENGTH * SEGMENT_SPACING`
points `{x: pos.x + i * SPEED, y: pos.y}` pushed for `i = 0, 1, ...`. -/
noncomputable def initTail (p : Point) : List Point :=
  (List.range (TAIL_LENGTH * SEGMENT_SPACING)).map fun i : ℕ => ⟨p.x + (i : ℝ) * SPEED, p.y⟩

/-- The `initGame` procedure: start position and heading `Math.PI`, the
initial straight tail, score `0`, a fresh food position, and the play flag
false (`initGame()` runs at mount while the flag is already false, and
`initGame(true)` clears it). -/
noncomputable def initState (w h : ℝ) (rands : ℕ → ℝ × ℝ) : GameState :=
  { w := w, h := h, pos := startPos w h, angle := π, target := π,
    hist := initTail (startPos w h), food := spawnFood rands w h,
    score := 0, playing := false }

/-- Step 1 of the game loop applied to a state: the eased heading. -/
noncomputable def newAngle (s : GameState) : ℝ :=
  angleStep s.angle s.target

/-- Step 2 of the game loop: `pos += (cos angle, sin angle) * SPEED` using
the already-updated angle. -/
noncomputable def movedPos (s : GameState) : Point :=
  ⟨s.pos.x + Real.cos (newAngle s) * SPEED, s.pos.y + Real.sin (newAngle s) * SPEED⟩

/-- First wraparound conditional on one coordinate: `if (c < 0) c = bound`. -/
noncomputable def wrapLow (c bound : ℝ) : ℝ :=
  if c < 0 then bound else c

/-- Second wraparound conditional on one coordinate: `if (c > bound) c = 0`,
executed after `wrapLow` on the possibly already-updated value. -/
noncomputable def wrapHigh (c bound : ℝ) : ℝ :=
  if c > bound then 0 else c

/-- The two sequential wraparound conditionals of step 3 on one coordinate. -/
noncomputable def wrapCoord (c bound : ℝ) : ℝ :=
  wrapHigh (wrapLow c bound) bound

/-- Step 3 of the game loop: Pac-Man style wraparound of the moved head. -/
noncomputable def wrappedPos (s : GameState) : Point :=
  ⟨wrapCoord (movedPos s).x s.w, wrapCoord (movedPos s).y s.h⟩

/-- The score-derived trail cap of step 4:
`(TAIL_LENGTH + score * GROWTH_PER_FOOD) * SEGMENT_SPACING`. -/
def capLen (score : ℕ) : ℕ :=
  (TAIL_LENGTH + score * GROWTH_PER_FOOD) * SEGMENT_SPACING

/-- Step 4 of the game loop: `unshift` the wrapped head onto the history and
`pop` the oldest point when the length exceeds the cap. -/
noncomputable def histAfterTail (s : GameState) : List Point :=
  if capLen s.score < (wrappedPos s :: s.hist).length then
    (wrappedPos s :: s.hist).dropLast
  else wrappedPos s :: s.hist

open Classical in
/-- Step 5 of the game loop, producing the food position and score after the
food-distance check: on `dist < 15` the score increments and `spawnFood`
is invoked, otherwise both are unchanged. -/
noncomputable def foodStage (r1 : ℕ → ℝ × ℝ) (head : Point) (s : GameState) :
    Point × ℕ :=
  if ptDist head s.food < 15 then (spawnFood r1 s.w s.h, s.score + 1)
  else (s.food, s.score)

/-- The indices visited by the self-collision scan of step 6:
`for (let i = 15; i < history.length; i += SEGMENT_SPACING)`. -/
def sampleIdxs (n : ℕ) : List ℕ :=
  (List.range n).filter fun i => 15 ≤ i ∧ (i - 15) % SEGMENT_SPACING = 0

/-- The trigger condition of the self-collision scan: some sampled segment
lies within `5` of the head while its distance to its immediate predecessor
in the history stays below the wrap-jump threshold `50`. -/
noncomputable def SelfCollide (head : Point) (l : List Point) : Prop :=
  ∃ i ∈ sampleIdxs l.length,
    ptDist head (l.getD i ⟨0, 0⟩) < 5 ∧
      ptDist (l.getD i ⟨0, 0⟩) (l.getD (i - 1) ⟨0, 0⟩) < 50

open Classical in
/-- One invocation of the playing part of the frame callback `loop` (the
SnakeGame.tsx variant, whose collision branch calls `initGame(true)` and
returns): heading ease, move, wrap, tail update, food check, and the
self-collision scan, which on a hit resets the whole game.  The streams `r1`
and `r2` supply the `Math.random()` draws of a pickup respawn and of a
post-crash respawn.  When the play flag is off the state is untouched. -/
noncomputable def tick (r1 r2 : ℕ → ℝ × ℝ) (s : GameState) : GameState :=
  if s.playing then
    if SelfCollide (wrappedPos s) (histAfterTail s) then initState s.w s.h r2
    else
      { s with pos := wrappedPos s, angle := newAngle s, hist := histAfterTail s,
               food := (foodStage r1 (wrappedPos s) s).1,
               score := (foodStage r1 (wrappedPos s) s).2 }
  else s

/-- The transitions of the component besides the frame callback itself:
`startGame` raises the play flag, `handleInteraction` stores a new target
angle while playing, and `handleResize` overwrites the stored dimensions. -/
inductive Step : GameState → GameState → Prop
  | tick (r1 r2 : ℕ → ℝ × ℝ) (s : GameState) : Step s (tick r1 r2 s)
  | start (s : GameState) : Step s { s with playing := true }
  | input (θ : ℝ) (s : GameState) : s.playing = true → Step s { s with target := θ }
  | resize (w' h' : ℝ) (s : GameState) : Step s { s with w := w', h := h' }

/-- States reachable from a mount-time `initGame()` through any sequence of
frame ticks, start clicks, pointer inputs and resizes. -/
inductive Reachable : GameState → Prop
  | init (w h : ℝ) (rands : ℕ → ℝ × ℝ) : Reachable (initState w h rands)
  | step {s s' : GameState} : Reachable s → Step s s' → Reachable s'

/-- The destructuring swap `[A[i], A[j]] = [A[j], A[i]]` of `shuffleArray`,
modelled totally: for out-of-range indices (which the shuffle never produces
for draws in `[0, 1)`) the list is unchanged. -/
def listSwap {α : Type*} (l : List α) (i j : ℕ) : List α :=
  match l[i]?, l[j]? with
  | some a, some b => (l.set i b).set j a
  | _, _ => l

/-- The Fisher-Yates loop of `shuffleArray` on the copied array, with the
loop variable counting down:
`for (let i = n - 1; i > 0; i--) { j = Math.floor(Math.random() * (i + 1)); swap i j }`. -/
noncomputable def shuffleGo {α : Type*} (rands : ℕ → ℝ) : List α → ℕ → List α
  | l, 0 => l
  | l, i + 1 =>
      shuffleGo rands (listSwap l (i + 1) (⌊rands (i + 1) * ((i : ℝ) + 2)⌋).toNat) i

/-- The `shuffleArray` helper of the digest service: spread-copy the input
(a no-op in the pure embedding) and run the Fisher-Yates loop from index
`length - 1` down to `1`. -/
noncomputable def shuffleArray {α : Type*} (rands : ℕ → ℝ) (l : List α) : List α :=
  shuffleGo rands l (l.length - 1)

/-- The margin-inset play area `[margin, dimension - margin]` on both axes. -/
def InPlayArea (p : Point) (w h : ℝ) : Prop :=
  margin ≤ p.x ∧ p.x ≤ w - margin ∧ margin ≤ p.y ∧ p.y ≤ h - margin

/-- The random pairs of the stream all lie in `[0, 1)`, as `Math.random()`
guarantees. -/
def ValidDraws (rands : ℕ → ℝ × ℝ) : Prop :=
  ∀ k, 0 ≤ (rands k).1 ∧ (rands k).1 < 1 ∧ 0 ≤ (rands k).2 ∧ (rands k).2 < 1

/-- The concrete stream of `Math.random()` pairs used by the concrete runs:
each draw is `(291/304, 55/56)`, so the first spawn attempt on an
`800 × 600` viewport is `(747.5, 570)` — on the initial straight path of
the snake and outside the forbidden zone. -/
noncomputable def demoDraws : ℕ → ℝ × ℝ := fun _ => (291 / 304, 55 / 56)

/-- The mount-time state of an `800 × 600` viewport with `demoDraws`,
after the start button was clicked. -/
noncomputable def startedState : GameState :=
  { initState 800 600 demoDraws with playing := true }

/-- A playing state on an `800 × 600` viewport heading left from
`(100, 50)`, with a short far-away history and the food right on the next
head position, used to exercise the pickup branch. -/
noncomputable def pickupState : GameState :=
  { w := 800, h := 600, pos := ⟨100, 50⟩, angle := π, target := π,
    hist := List.replicate 14 ⟨300, 300⟩, food := ⟨97.5, 50⟩, score := 0, playing := true }

/-- A 20-point history whose sampled index 15 (history index 14 after the
unshift) coincides with the next head position and whose predecessor is one
unit away, triggering a genuine self-collision. -/
noncomputable def crashTail : List Point :=
  [⟨300, 300⟩, ⟨300, 300⟩, ⟨300, 300⟩, ⟨300, 300⟩, ⟨300, 300⟩, ⟨300, 300⟩, ⟨300, 300⟩,
   ⟨300, 300⟩, ⟨300, 300⟩, ⟨300, 300⟩, ⟨300, 300⟩, ⟨300, 300⟩, ⟨300, 300⟩, ⟨97.5, 51⟩,
   ⟨97.5, 50⟩, ⟨300, 300⟩, ⟨300, 300⟩, ⟨300, 300⟩, ⟨300, 300⟩, ⟨300, 300⟩]

/-- A playing state whose tick detects a genuine self-collision. -/
noncomputable def crashState : GameState :=
  { w := 800, h := 600, pos := ⟨100, 50⟩, angle := π, target := π,
    hist := crashTail, food := ⟨500, 500⟩, score := 0, playing := true }

/-- A 16-point history whose only sampled point coincides with the next
head position but whose predecessor lies 450 units away — a wrap jump. -/
noncomputable def jumpTail : List Point :=
  [⟨300, 300⟩, ⟨300, 300⟩, ⟨300, 300⟩, ⟨300, 300⟩, ⟨300, 300⟩, ⟨300, 300⟩, ⟨300, 300⟩,
   ⟨300, 300⟩, ⟨300, 300⟩, ⟨300, 300⟩, ⟨300, 300⟩, ⟨300, 300⟩, ⟨300, 300⟩, ⟨97.5, 500⟩,
   ⟨97.5, 50⟩, ⟨300, 300⟩]

/-- A playing state whose only sampled trail point sits on the head but is
a wrap discontinuity. -/
noncomputable def jumpState : GameState :=
  { w := 800, h := 600, pos := ⟨100, 50⟩, angle := π, target := π,
    hist := jumpTail, food := ⟨500, 500⟩, score := 0, playing := true }

/-- A playing state one step away from leaving the right edge, heading
right from `(799, 10)`. -/
noncomputable def wrapDemoState : GameState :=
  { w := 800, h := 600, pos := ⟨799, 10⟩, angle := 0, target := 0,
    hist := [], food := ⟨0, 0⟩, score := 0, playing := true }

/-- The frame callback of the SnakeGame.tsx variant reaches its trailing
`requestAnimationFrame(loop)` exactly when it is not playing or its
self-collision scan finds no hit: the collision branch executes
`initGame(true); return;`, leaving the function before the render and the
rescheduling call. -/
noncomputable def SchedulesNext (s : GameState) : Prop :=
  s.playing = true → ¬SelfCollide (wrappedPos s) (histAfterTail s)

theorem normLoopA_gt (d : ℝ) : -π < normLoopA d := by
  induction d using normLoopA.induct with
  | case1 d h ih => rw [normLoopA, dif_pos h]; exact ih
  | case2 d h => rw [normLoopA, dif_neg h]; exact lt_of_not_le h

theorem normLoopB_le (d : ℝ) : normLoopB d ≤ π := by
  induction d using normLoopB.induct with
  | case1 d h ih => rw [normLoopB, dif_pos h]; exact ih
  | case2 d h => rw [normLoopB, dif_neg h]; exact le_of_not_lt h

theorem normLoopB_gt (d : ℝ) (hd : -π < d) : -π < normLoopB d := by
  induction d using normLoopB.induct with
  | case1 d h ih =>
    rw [normLoopB, dif_pos h]
    exact ih (by have := Real.pi_pos; linarith)
  | case2 d h => rw [normLoopB, dif_neg h]; exact hd

theorem normLoopA_congr (d : ℝ) : ∃ k : ℤ, normLoopA d = d + 2 * π * k := by
  induction d using normLoopA.induct with
  | case1 d h ih =>
    rw [normLoopA, dif_pos h]
    obtain ⟨k, hk⟩ := ih
    exact ⟨k + 1, by rw [hk]; push_cast; ring⟩
  | case2 d h => exact ⟨0, by rw [normLoopA, dif_neg h]; push_cast; ring⟩

theorem normLoopB_congr (d : ℝ) : ∃ k : ℤ, normLoopB d = d + 2 * π * k := by
  induction d using normLoopB.induct with
  | case1 d h ih =>
    rw [normLoopB, dif_pos h]
    obtain ⟨k, hk⟩ := ih
    exact ⟨k - 1, by rw [hk]; push_cast; ring⟩
  | case2 d h => exact ⟨0, by rw [normLoopB, dif_neg h]; push_cast; ring⟩

theorem normalizeDiff_gt (d : ℝ) : -π < normalizeDiff d :=
  normLoopB_gt _ (normLoopA_gt d)

theorem normalizeDiff_le (d : ℝ) : normalizeDiff d ≤ π :=
  normLoopB_le _

theorem normalizeDiff_congr (d : ℝ) : ∃ k : ℤ, normalizeDiff d = d + 2 * π * k := by
  obtain ⟨k₁, h₁⟩ := normLoopA_congr d
  obtain ⟨k₂, h₂⟩ := normLoopB_congr (normLoopA d)
  exact ⟨k₁ + k₂, by rw [normalizeDiff, h₂, h₁]; push_cast; ring⟩

theorem normalizeDiff_eq_self {d : ℝ} (h₁ : -π < d) (h₂ : d ≤ π) :
    normalizeDiff d = d := by
  rw [normalizeDiff, normLoopA, dif_neg (not_le.mpr h₁), normLoopB,
    dif_neg (not_lt.mpr h₂)]

theorem normalizeDiff_zero : normalizeDiff 0 = 0 :=
  normalizeDiff_eq_self (by have := Real.pi_pos; linarith) (le_of_lt Real.pi_pos)

theorem cons_set_perm {α : Type*} (x : α) :
    ∀ (t : List α) (m : ℕ) (b : α), t[m]? = some b → (b :: t.set m x).Perm (x :: t) := by
  intro t
  induction t with
  | nil => intro m b hb; simp at hb
  | cons y t ih =>
    intro m b hb
    cases m with
    | zero =>
      simp only [List.getElem?_cons_zero, Option.some.injEq] at hb
      subst hb
      simpa [List.set] using List.Perm.swap x y t
    | succ m =>
      simp only [List.getElem?_cons_succ] at hb
      have h1 : (b :: t.set m x).Perm (x :: t) := ih m b hb
      have h2 : (b :: y :: t.set m x).Perm (y :: b :: t.set m x) := List.Perm.swap y b _
      have h3 : (y :: b :: t.set m x).Perm (y :: x :: t) := h1.cons y
      have h4 : (y :: x :: t).Perm (x :: y :: t) := List.Perm.swap x y t
      simpa [List.set] using (h2.trans h3).trans h4

theorem set_set_perm {α : Type*} :
    ∀ (l : List α) (i j : ℕ) (a b : α), l[i]? = some a → l[j]? = some b →
      ((l.set i b).set j a).Perm l := by
  intro l
  induction l with
  | nil => intro i j a b ha; simp at ha
  | cons x t ih =>
    intro i j a b ha hb
    cases i with
    | zero =>
      simp only [List.getElem?_cons_zero, Option.some.injEq] at ha
      subst ha
      cases j with
      | zero =>
        simp only [List.getElem?_cons_zero, Option.some.injEq] at hb
        subst hb
        simp [List.set]
      | succ j =>
        simp only [List.getElem?_cons_succ] at hb
        simpa [List.set] using cons_set_perm x t j b hb
    | succ i =>
      simp only [List.getElem?_cons_succ] at ha
      cases j with
      | zero =>
        simp only [List.getElem?_cons_zero, Option.some.injEq] at hb
        subst hb
        simpa [List.set] using cons_set_perm x t i a ha
      | succ j =>
        simp only [List.getElem?_cons_succ] at hb
        simpa [List.set] using (ih i j a b ha hb).cons x

theorem listSwap_perm {α : Type*} (l : List α) (i j : ℕ) : (listSwap l i j).Perm l := by
  unfold listSwap
  cases hi : l[i]? with
  | none => exact List.Perm.refl l
  | some a =>
    cases hj : l[j]? with
    | none => exact List.Perm.refl l
    | some b => exact set_set_perm l i j a b hi hj

theorem shuffleGo_perm {α : Type*} (rands : ℕ → ℝ) :
    ∀ (i : ℕ) (l : List α), (shuffleGo rands l i).Perm l := by
  intro i
  induction i with
  | zero => intro l; exact List.Perm.refl l
  | succ i ih =>
    intro l
    exact (ih _).trans (listSwap_perm l (i + 1) _)

theorem ptDist_self (p : Point) : ptDist p p = 0 := by
  simp [ptDist]

theorem ptDist_horiz (a b y : ℝ) : ptDist ⟨a, y⟩ ⟨b, y⟩ = |a - b| := by
  simp [ptDist, Real.sqrt_sq_eq_abs]

theorem ptDist_vert (x c d : ℝ) : ptDist ⟨x, c⟩ ⟨x, d⟩ = |c - d| := by
  simp [ptDist, Real.sqrt_sq_eq_abs]

theorem abs_sub_y_le_ptDist (p q : Point) : |p.y - q.y| ≤ ptDist p q := by
  rw [← Real.sqrt_sq_eq_abs]
  exact Real.sqrt_le_sqrt (by nlinarith [sq_nonneg (p.x - q.x)])

theorem abs_sub_x_le_ptDist (p q : Point) : |p.x - q.x| ≤ ptDist p q := by
  rw [← Real.sqrt_sq_eq_abs]
  exact Real.sqrt_le_sqrt (by nlinarith [sq_nonneg (p.y - q.y)])

theorem spawnFrom_spec (rands : ℕ → ℝ × ℝ) (w h : ℝ) (hr : ValidDraws rands)
    (hw : 40 ≤ w) (hh : 40 ≤ h) (k : ℕ) :
    (InPlayArea (spawnFrom rands w h k) w h ∧
        ¬InForbiddenZone (spawnFrom rands w h k) w h) ∨
      (spawnFrom rands w h k = ⟨margin, margin⟩ ∧
        ∀ j, k ≤ j → j < 100 → InForbiddenZone (spawnAttempt (rands j) w h) w h) := by
  induction k using spawnFrom.induct rands w h with
  | case1 k hk hzone ih =>
    rw [spawnFrom, dif_pos hk, if_pos hzone]
    rcases ih with h | ⟨he, hall⟩
    · exact Or.inl h
    · refine Or.inr ⟨he, fun j hj hj100 => ?_⟩
      rcases Nat.eq_or_lt_of_le hj with rfl | hj'
      · exact hzone
      · exact hall j hj' hj100
  | case2 k hk hzone =>
    rw [spawnFrom, dif_pos hk, if_neg hzone]
    refine Or.inl ⟨?_, hzone⟩
    obtain ⟨h0, h1, h2, h3⟩ := hr k
    simp only [InPlayArea, spawnAttempt, margin]
    refine ⟨by nlinarith, by nlinarith, by nlinarith, by nlinarith⟩
  | case3 k hk =>
    rw [spawnFrom, dif_neg hk]
    exact Or.inr ⟨rfl, fun j hj hj100 => absurd hj100 (by omega)⟩

/-- C6: every food position produced by the spawner lies inside the
margin-inset play area on both axes and outside the centered forbidden
rectangle, except that when all 100 random attempts land inside the
forbidden rectangle the fixed corner fallback `(margin, margin)` is used. -/
theorem C6_spawn_zone (rands : ℕ → ℝ × ℝ) (w h : ℝ) (hr : ValidDraws rands)
    (hw : 40 ≤ w) (hh : 40 ≤ h) :
    (InPlayArea (spawnFood rands w h) w h ∧
        ¬InForbiddenZone (spawnFood rands w h) w h) ∨
      (spawnFood rands w h = ⟨margin, margin⟩ ∧
        ∀ j, j < 100 → InForbiddenZone (spawnAttempt (rands j) w h) w h) := by
  rcases spawnFrom_spec rands w h hr hw hh 0 with hgood | ⟨he, hall⟩
  · exact Or.inl hgood
  · exact Or.inr ⟨he, fun j hj => hall j (Nat.zero_le j) hj⟩

/-- Witness for C6 at concrete draws `(0, 0)` on an `800 × 600` viewport:
the first attempt `(20, 20)` misses the forbidden zone and is accepted. -/
theorem C6_spawn_zone_witness :
    (InPlayArea (spawnFood (fun _ => ((0 : ℝ), (0 : ℝ))) 800 600) 800 600 ∧
        ¬InForbiddenZone (spawnFood (fun _ => ((0 : ℝ), (0 : ℝ))) 800 600) 800 600) ∨
      (spawnFood (fun _ => ((0 : ℝ), (0 : ℝ))) 800 600 = ⟨margin, margin⟩ ∧
        ∀ j, j < 100 →
          InForbiddenZone (spawnAttempt ((0 : ℝ), (0 : ℝ)) 800 600) 800 600) :=
  C6_spawn_zone (fun _ => ((0 : ℝ), (0 : ℝ))) 800 600
    (fun _ => by norm_num) (by norm_num) (by norm_num)

/-- C1, as stated, is refuted at the degenerate tick where the heading
already equals the target (the state every game starts in): the updated
angle equals the previous angle and therefore does not lie strictly between
the previous angle and the target. -/
theorem C1_counterexample : ¬StrictBetweenArc π π (angleStep π π) := by
  have h0 : normalizeDiff (π - π) = 0 := by rw [sub_self, normalizeDiff_zero]
  rw [StrictBetweenArc, shortTarget, h0, add_zero, min_self, max_self]
  rintro ⟨h1, h2⟩
  exact absurd (h1.trans h2) (lt_irrefl π)

/-- C1 (amended): the angular difference is normalized into `(-π, π]` while
staying congruent to `targetAngle - angle` modulo `2π`, and whenever the
normalized difference is nonzero the updated angle lies strictly between the
previous angle and the short-arc representative of the target — the easing
never overshoots in one step. -/
theorem C1_heading_ease (a t : ℝ) (hd : normalizeDiff (t - a) ≠ 0) :
    (-π < normalizeDiff (t - a) ∧ normalizeDiff (t - a) ≤ π ∧
        ∃ k : ℤ, normalizeDiff (t - a) = (t - a) + 2 * π * k) ∧
      StrictBetweenArc a t (angleStep a t) := by
  refine ⟨⟨normalizeDiff_gt _, normalizeDiff_le _, normalizeDiff_congr _⟩, ?_⟩
  rw [StrictBetweenArc, shortTarget, angleStep, TURN_SPEED]
  rcases hd.lt_or_lt with hneg | hpos
  · rw [min_eq_right (by linarith), max_eq_left (by linarith)]
    constructor <;> nlinarith
  · rw [min_eq_left (by linarith), max_eq_right (by linarith)]
    constructor <;> nlinarith

/-- Witness for C1 (amended) at the previous angle `0` and target `π/2`. -/
theorem C1_heading_ease_witness :
    normalizeDiff (π / 2 - 0) ≠ 0 ∧ StrictBetweenArc 0 (π / 2) (angleStep 0 (π / 2)) := by
  have hpi := Real.pi_pos
  have hd : normalizeDiff (π / 2 - 0) ≠ 0 := by
    rw [sub_zero, normalizeDiff_eq_self (by linarith) (by linarith)]
    positivity
  exact ⟨hd, (C1_heading_ease 0 (π / 2) hd).2⟩

theorem initTail_length (p : Point) :
    (initTail p).length = TAIL_LENGTH * SEGMENT_SPACING := by
  rw [initTail, List.length_map, List.length_range]

theorem capLen_mono {a b : ℕ} (h : a ≤ b) : capLen a ≤ capLen b := by
  simp only [capLen, TAIL_LENGTH, GROWTH_PER_FOOD, SEGMENT_SPACING]
  omega

theorem initState_len_le_cap (w h : ℝ) (rands : ℕ → ℝ × ℝ) :
    (initState w h rands).hist.length ≤ capLen (initState w h rands).score := by
  simp only [initState, initTail_length]
  simp [capLen]

theorem histAfterTail_len_le_cap {s : GameState}
    (ih : s.hist.length ≤ capLen s.score) :
    (histAfterTail s).length ≤ capLen s.score := by
  rw [histAfterTail]
  by_cases hgt : capLen s.score < (wrappedPos s :: s.hist).length
  · rw [if_pos hgt, List.length_dropLast, List.length_cons]
    omega
  · rw [if_neg hgt]
    rw [List.length_cons] at hgt ⊢
    omega

theorem foodStage_score_ge (r1 : ℕ → ℝ × ℝ) (head : Point) (s : GameState) :
    s.score ≤ (foodStage r1 head s).2 := by
  rw [foodStage]
  split <;> simp

theorem tick_len_le_cap (r1 r2 : ℕ → ℝ × ℝ) (s : GameState)
    (ih : s.hist.length ≤ capLen s.score) :
    (tick r1 r2 s).hist.length ≤ capLen (tick r1 r2 s).score := by
  rw [tick]
  by_cases hp : s.playing = true
  · rw [if_pos hp]
    by_cases hc : SelfCollide (wrappedPos s) (histAfterTail s)
    · rw [if_pos hc]
      exact initState_len_le_cap s.w s.h r2
    · rw [if_neg hc]
      exact (histAfterTail_len_le_cap ih).trans
        (capLen_mono (foodStage_score_ge r1 (wrappedPos s) s))
  · rw [if_neg hp]
    exact ih

theorem reach_len_le_cap {s : GameState} (h : Reachable s) :
    s.hist.length ≤ capLen s.score := by
  induction h with
  | init w h rands => exact initState_len_le_cap w h rands
  | step hr hst ih =>
    cases hst with
    | tick r1 r2 s => exact tick_len_le_cap r1 r2 _ ih
    | start s => exact ih
    | input θ s hθ => exact ih
    | resize w' h' s => exact ih

/-- C2: in every reachable state the trail length is at most
`(TAIL_LENGTH + score * GROWTH_PER_FOOD) * SEGMENT_SPACING`, and whenever
the tick's `unshift` pushes the trail past this cap the update drops the
oldest point from the back of the history. -/
theorem C2_trail_cap (s : GameState) (hs : Reachable s) :
    s.hist.length ≤ capLen s.score ∧
      (capLen s.score < (wrappedPos s :: s.hist).length →
        histAfterTail s = (wrappedPos s :: s.hist).dropLast) :=
  ⟨reach_len_le_cap hs, fun hgt => by rw [histAfterTail, if_pos hgt]⟩

theorem startedState_reachable : Reachable startedState :=
  Reachable.step (Reachable.init 800 600 demoDraws) (Step.start _)

/-- Witness for C2 at the started mount-time state of an `800 × 600`
viewport. -/
theorem C2_trail_cap_witness :
    startedState.hist.length ≤ capLen startedState.score ∧
      (capLen startedState.score < (wrappedPos startedState :: startedState.hist).length →
        histAfterTail startedState = (wrappedPos startedState :: startedState.hist).dropLast) :=
  C2_trail_cap startedState startedState_reachable

theorem tick_shrink (r1 r2 : ℕ → ℝ × ℝ) (s : GameState) (hp : s.playing = true)
    (hlt : (tick r1 r2 s).hist.length < s.hist.length) :
    tick r1 r2 s = initState s.w s.h r2 ∧
      (tick r1 r2 s).hist.length = capLen (tick r1 r2 s).score := by
  rw [tick, if_pos hp]
  rw [tick, if_pos hp] at hlt
  by_cases hc : SelfCollide (wrappedPos s) (histAfterTail s)
  · rw [if_pos hc] at hlt ⊢
    refine ⟨rfl, ?_⟩
    simp only [initState, initTail_length]
    simp [capLen]
  · rw [if_neg hc] at hlt ⊢
    exfalso
    revert hlt
    simp only [histAfterTail]
    split
    · rw [List.length_dropLast, List.length_cons]
      omega
    · rw [List.length_cons]
      omega

/-- C9 (amended): in every reachable state the trail length is at most the
score-derived cap — in particular at most `(20 + 10*10)*4 = 480` once ten
pickups have happened, which the length then approaches by one point per
tick rather than holding immediately — and the only tick that shrinks the
trail is a collision reset, which leaves the length exactly at the cap for
the reset score `0` (never below the cap).  A pop merely cancels the same
tick's `unshift`, so a non-reset tick never decreases the length. -/
theorem C9_trail_growth (s : GameState) (hs : Reachable s) :
    (s.hist.length ≤ capLen s.score ∧ (s.score = 10 → s.hist.length ≤ 480)) ∧
      ∀ r1 r2, s.playing = true → (tick r1 r2 s).hist.length < s.hist.length →
        tick r1 r2 s = initState s.w s.h r2 ∧
          (tick r1 r2 s).hist.length = capLen (tick r1 r2 s).score := by
  refine ⟨⟨reach_len_le_cap hs, fun h10 => ?_⟩, fun r1 r2 hp hlt => tick_shrink r1 r2 s hp hlt⟩
  have := reach_len_le_cap hs
  rw [h10] at this
  simpa [capLen, TAIL_LENGTH, GROWTH_PER_FOOD, SEGMENT_SPACING] using this

/-- Witness for C9 (amended) at the started mount-time state. -/
theorem C9_trail_growth_witness :
    (startedState.hist.length ≤ capLen startedState.score ∧
        (startedState.score = 10 → startedState.hist.length ≤ 480)) ∧
      ∀ r1 r2, startedState.playing = true →
        (tick r1 r2 startedState).hist.length < startedState.hist.length →
          tick r1 r2 startedState = initState startedState.w startedState.h r2 ∧
            (tick r1 r2 startedState).hist.length =
              capLen (tick r1 r2 startedState).score :=
  C9_trail_growth startedState startedState_reachable

theorem wrapCoord_of_neg {c : ℝ} (b : ℝ) (h : c < 0) : wrapCoord c b = b := by
  rw [wrapCoord, wrapLow, if_pos h, wrapHigh, if_neg (lt_irrefl b)]

theorem wrapCoord_of_gt {c b : ℝ} (hb : 0 ≤ b) (h : b < c) : wrapCoord c b = 0 := by
  rw [wrapCoord, wrapLow, if_neg (not_lt.mpr (hb.trans (le_of_lt h))), wrapHigh, if_pos h]

theorem wrapCoord_of_mem {c b : ℝ} (h0 : 0 ≤ c) (h1 : c ≤ b) : wrapCoord c b = c := by
  rw [wrapCoord, wrapLow, if_neg (not_lt.mpr h0), wrapHigh, if_neg (not_lt.mpr h1)]

/-- C7: the toroidal wrap applied to the moved head sends an `x` below `0`
to `width`, an `x` above `width` to `0`, and leaves an in-range coordinate
unchanged, symmetrically for `y` over `[0, height]`; in particular a head
driven to exactly `width + ε` wraps to `0`. -/
theorem C7_wrap (s : GameState) :
    ((movedPos s).x < 0 → (wrappedPos s).x = s.w) ∧
      (0 ≤ s.w → s.w < (movedPos s).x → (wrappedPos s).x = 0) ∧
      (0 ≤ (movedPos s).x → (movedPos s).x ≤ s.w → (wrappedPos s).x = (movedPos s).x) ∧
      ((movedPos s).y < 0 → (wrappedPos s).y = s.h) ∧
      (0 ≤ s.h → s.h < (movedPos s).y → (wrappedPos s).y = 0) ∧
      (0 ≤ (movedPos s).y → (movedPos s).y ≤ s.h → (wrappedPos s).y = (movedPos s).y) ∧
      ∀ e, 0 < e → 0 ≤ s.w → (movedPos s).x = s.w + e → (wrappedPos s).x = 0 := by
  have hx : (wrappedPos s).x = wrapCoord (movedPos s).x s.w := rfl
  have hy : (wrappedPos s).y = wrapCoord (movedPos s).y s.h := rfl
  refine ⟨fun h => ?_, fun hb h => ?_, fun h0 h1 => ?_, fun h => ?_, fun hb h => ?_,
    fun h0 h1 => ?_, fun e he hb hme => ?_⟩
  · rw [hx, wrapCoord_of_neg _ h]
  · rw [hx, wrapCoord_of_gt hb h]
  · rw [hx, wrapCoord_of_mem h0 h1]
  · rw [hy, wrapCoord_of_neg _ h]
  · rw [hy, wrapCoord_of_gt hb h]
  · rw [hy, wrapCoord_of_mem h0 h1]
  · rw [hx, hme, wrapCoord_of_gt hb (by linarith)]

/-- C3: on a playing tick that does not end in a collision reset, the score
increments exactly when the head-to-food distance is strictly below `15`; a
pickup refreshes the food through the spawner, and otherwise — including at
distance exactly `15` — score and food are unchanged. -/
theorem C3_food_pickup (r1 r2 : ℕ → ℝ × ℝ) (s : GameState) (hp : s.playing = true)
    (hnc : ¬SelfCollide (wrappedPos s) (histAfterTail s)) :
    ((tick r1 r2 s).score = s.score + 1 ↔ ptDist (wrappedPos s) s.food < 15) ∧
      (ptDist (wrappedPos s) s.food < 15 →
        (tick r1 r2 s).score = s.score + 1 ∧
          (tick r1 r2 s).food = spawnFood r1 s.w s.h) ∧
      (15 ≤ ptDist (wrappedPos s) s.food →
        (tick r1 r2 s).score = s.score ∧ (tick r1 r2 s).food = s.food) ∧
      (ptDist (wrappedPos s) s.food = 15 →
        (tick r1 r2 s).score = s.score ∧ (tick r1 r2 s).food = s.food) := by
  rw [tick, if_pos hp, if_neg hnc]
  by_cases hd : ptDist (wrappedPos s) s.food < 15
  · simp only [foodStage, if_pos hd]
    refine ⟨by simp [hd], fun _ => by simp, fun h15 => absurd hd (not_lt.mpr h15), fun h15 => ?_⟩
    rw [h15] at hd
    exact absurd hd (lt_irrefl 15)
  · simp only [foodStage, if_neg hd]
    exact ⟨by simp [hd], fun h => absurd h hd, fun _ => by simp, fun _ => by simp⟩

/-- C4: whenever the self-collision scan fires on a playing tick, the tick
resets the simulation: head at the start corner `(width - 50, height - 30)`,
heading and target heading `π`, the initial straight trail, score `0`, and
the play flag cleared. -/
theorem C4_collision_reset (r1 r2 : ℕ → ℝ × ℝ) (s : GameState) (hp : s.playing = true)
    (hw : 0 < s.w) (hh : 0 < s.h)
    (hc : SelfCollide (wrappedPos s) (histAfterTail s)) :
    (tick r1 r2 s).pos = ⟨s.w - 50, s.h - 30⟩ ∧
      (tick r1 r2 s).angle = π ∧ (tick r1 r2 s).target = π ∧
      (tick r1 r2 s).hist = initTail ⟨s.w - 50, s.h - 30⟩ ∧
      (tick r1 r2 s).score = 0 ∧ (tick r1 r2 s).playing = false := by
  rw [tick, if_pos hp, if_pos hc]
  have hsp : startPos s.w s.h = ⟨s.w - 50, s.h - 30⟩ := by
    rw [startPos, if_pos hw, if_pos hh]
  exact ⟨hsp, rfl, rfl, by rw [show (initState s.w s.h r2).hist = initTail (startPos s.w s.h) from rfl, hsp],
    rfl, rfl⟩

/-- C5: when every sampled trail point is a wrap discontinuity — its
distance to its immediate predecessor exceeds the jump threshold `50` — the
self-collision reset branch is not taken even if sampled points lie within
`5` of the head, and the tick keeps playing. -/
theorem C5_wrap_jump_excluded (r1 r2 : ℕ → ℝ × ℝ) (s : GameState)
    (hp : s.playing = true)
    (hj : ∀ i ∈ sampleIdxs (histAfterTail s).length,
      50 < ptDist ((histAfterTail s).getD i ⟨0, 0⟩) ((histAfterTail s).getD (i - 1) ⟨0, 0⟩)) :
    ¬SelfCollide (wrappedPos s) (histAfterTail s) ∧ (tick r1 r2 s).playing = true := by
  have hnc : ¬SelfCollide (wrappedPos s) (histAfterTail s) := by
    rintro ⟨i, hi, hd5, hjump⟩
    exact absurd hjump (not_lt.mpr (le_of_lt (hj i hi)))
  refine ⟨hnc, ?_⟩
  rw [tick, if_pos hp, if_neg hnc]
  exact hp

theorem tailLen80 : TAIL_LENGTH * SEGMENT_SPACING = 80 := rfl

theorem newAngle_eq_self {s : GameState} (h : s.target = s.angle) :
    newAngle s = s.angle := by
  rw [newAngle, angleStep, h, sub_self, normalizeDiff_zero, zero_mul, add_zero]

theorem histAfterTail_no_pop {s : GameState}
    (h : (wrappedPos s :: s.hist).length ≤ capLen s.score) :
    histAfterTail s = wrappedPos s :: s.hist := by
  rw [histAfterTail, if_neg (not_lt.mpr h)]

theorem getD_dropLast {α : Type*} (l : List α) (i : ℕ) (d : α) (h : i < l.length - 1) :
    l.dropLast.getD i d = l.getD i d := by
  rw [List.getD_eq_getElem?_getD, List.getD_eq_getElem?_getD, List.dropLast_eq_take,
    List.getElem?_take, if_pos h]

theorem initTail_getD (p : Point) (i : ℕ) (d : Point)
    (h : i < TAIL_LENGTH * SEGMENT_SPACING) :
    (initTail p).getD i d = ⟨p.x + (i : ℝ) * SPEED, p.y⟩ := by
  rw [initTail, List.getD_eq_getElem?_getD, List.getElem?_map, List.getElem?_range h]
  rfl

theorem spawn_demo : spawnFood demoDraws 800 600 = ⟨747.5, 570⟩ := by
  rw [spawnFood, spawnFrom, dif_pos (by norm_num : (0:ℕ) < 100), if_neg]
  · rw [spawnAttempt]
    show Point.mk (margin + (291 / 304 : ℝ) * (800 - 2 * margin))
        (margin + (55 / 56 : ℝ) * (600 - 2 * margin)) = _
    rw [Point.mk.injEq, margin]
    norm_num
  · rintro ⟨-, -, hy2⟩
    rw [spawnAttempt] at hy2
    revert hy2
    show ¬(margin + (55 / 56 : ℝ) * (600 - 2 * margin) < 600 / 2 + forbiddenH / 2)
    rw [margin, forbiddenH]
    norm_num

theorem startPos_eval : startPos 800 600 = ⟨750, 570⟩ := by
  rw [startPos, if_pos (by norm_num : (800:ℝ) > 0), if_pos (by norm_num : (600:ℝ) > 0),
    Point.mk.injEq]
  norm_num

theorem started_pos : startedState.pos = ⟨750, 570⟩ := startPos_eval

theorem started_hist : startedState.hist = initTail ⟨750, 570⟩ := by
  show initTail (startPos 800 600) = _
  rw [startPos_eval]

theorem started_food : startedState.food = ⟨747.5, 570⟩ := spawn_demo

theorem started_head : wrappedPos startedState = ⟨747.5, 570⟩ := by
  have hna : newAngle startedState = π := (newAngle_eq_self rfl).trans rfl
  have hmx : (movedPos startedState).x = 747.5 := by
    show startedState.pos.x + Real.cos (newAngle startedState) * SPEED = 747.5
    rw [started_pos, hna, Real.cos_pi, SPEED]
    norm_num
  have hmy : (movedPos startedState).y = 570 := by
    show startedState.pos.y + Real.sin (newAngle startedState) * SPEED = 570
    rw [started_pos, hna, Real.sin_pi, SPEED]
    norm_num
  have hwp : wrappedPos startedState =
      ⟨wrapCoord (movedPos startedState).x 800, wrapCoord (movedPos startedState).y 600⟩ := rfl
  rw [hwp, hmx, hmy, wrapCoord_of_mem (by norm_num) (by norm_num),
    wrapCoord_of_mem (by norm_num) (by norm_num)]

theorem started_histAfterTail :
    histAfterTail startedState = (wrappedPos startedState :: startedState.hist).dropLast := by
  rw [histAfterTail, if_pos]
  rw [List.length_cons, started_hist, initTail_length, tailLen80]
  decide

theorem started_len : (histAfterTail startedState).length = 80 := by
  rw [started_histAfterTail, List.length_dropLast, List.length_cons, started_hist,
    initTail_length, tailLen80]

theorem started_no_collide :
    ¬SelfCollide (wrappedPos startedState) (histAfterTail startedState) := by
  rintro ⟨i, hi, h5, -⟩
  rw [started_len] at hi
  have hmem : 15 ≤ i ∧ i < 80 := by
    simp only [sampleIdxs, List.mem_filter, List.mem_range, decide_eq_true_eq] at hi
    exact ⟨hi.2.1, hi.1⟩
  obtain ⟨i', rfl⟩ : ∃ i', i = i' + 1 := ⟨i - 1, by omega⟩
  have hi14 : (14:ℕ) ≤ i' := by omega
  rw [started_histAfterTail,
    getD_dropLast _ _ _ (by rw [List.length_cons, started_hist, initTail_length, tailLen80]; omega),
    List.getD_cons_succ, started_hist,
    initTail_getD _ _ _ (by rw [tailLen80]; omega), started_head] at h5
  dsimp only at h5
  rw [ptDist_horiz, SPEED] at h5
  have hcast : (14:ℝ) ≤ (i' : ℝ) := by exact_mod_cast hi14
  have habs : (747.5:ℝ) - (750 + (i':ℝ) * 2.5) = -(2.5 + (i':ℝ) * 2.5) := by ring
  rw [habs, abs_neg, abs_of_nonneg (by positivity)] at h5
  linarith

theorem grown_score : (tick demoDraws demoDraws startedState).score = 1 := by
  have hd : ptDist (wrappedPos startedState) startedState.food < 15 := by
    rw [started_head, started_food, ptDist_self]
    norm_num
  rw [tick, if_pos (show startedState.playing = true from rfl), if_neg started_no_collide]
  show (foodStage demoDraws (wrappedPos startedState) startedState).2 = 1
  rw [foodStage, if_pos hd]
  rfl

theorem grown_len : (tick demoDraws demoDraws startedState).hist.length = 80 := by
  rw [tick, if_pos (show startedState.playing = true from rfl), if_neg started_no_collide]
  exact started_len

/-- C9, as stated, is refuted on a concrete reachable run: one playing tick
from the started mount-time state of an `800 × 600` viewport picks up the
food, after which the score is `1` yet the trail length `80` lies strictly
below the cap `(20 + 1*10)*4 = 120` — and the state, having a nonzero
score, is not immediately after a reset.  The same growth transient keeps
the length far below `480` right after ten pickups. -/
theorem C9_counterexample :
    Reachable (tick demoDraws demoDraws startedState) ∧
      (tick demoDraws demoDraws startedState).score = 1 ∧
      (tick demoDraws demoDraws startedState).hist.length <
        capLen (tick demoDraws demoDraws startedState).score := by
  refine ⟨Reachable.step startedState_reachable (Step.tick demoDraws demoDraws startedState),
    grown_score, ?_⟩
  rw [grown_len, grown_score]
  decide

theorem head_100_50 (s : GameState) (hpos : s.pos = ⟨100, 50⟩) (ha : s.angle = π)
    (ht : s.target = π) (hw : s.w = 800) (hh : s.h = 600) :
    wrappedPos s = ⟨97.5, 50⟩ := by
  have hna : newAngle s = π := (newAngle_eq_self (ht.trans ha.symm)).trans ha
  have hmx : (movedPos s).x = 97.5 := by
    show s.pos.x + Real.cos (newAngle s) * SPEED = 97.5
    rw [hpos, hna, Real.cos_pi, SPEED]
    norm_num
  have hmy : (movedPos s).y = 50 := by
    show s.pos.y + Real.sin (newAngle s) * SPEED = 50
    rw [hpos, hna, Real.sin_pi, SPEED]
    norm_num
  have hwp : wrappedPos s =
      ⟨wrapCoord (movedPos s).x s.w, wrapCoord (movedPos s).y s.h⟩ := rfl
  rw [hwp, hmx, hmy, hw, hh, wrapCoord_of_mem (by norm_num) (by norm_num),
    wrapCoord_of_mem (by norm_num) (by norm_num)]

theorem pickup_no_collide :
    ¬SelfCollide (wrappedPos pickupState) (histAfterTail pickupState) := by
  rintro ⟨i, hi, -⟩
  rw [histAfterTail_no_pop (by decide)] at hi
  rw [show ((wrappedPos pickupState :: pickupState.hist).length) = 15 from rfl] at hi
  rw [show sampleIdxs 15 = [] from by decide] at hi
  simp at hi

/-- Witness for C3 on the pickup state: the tick increments the score from
`0` to `1` and replaces the food through the spawner. -/
theorem C3_food_pickup_witness :
    ((tick demoDraws demoDraws pickupState).score = pickupState.score + 1 ↔
        ptDist (wrappedPos pickupState) pickupState.food < 15) ∧
      (tick demoDraws demoDraws pickupState).score = pickupState.score + 1 ∧
      (tick demoDraws demoDraws pickupState).food =
        spawnFood demoDraws pickupState.w pickupState.h := by
  have hd : ptDist (wrappedPos pickupState) pickupState.food < 15 := by
    rw [head_100_50 pickupState rfl rfl rfl rfl rfl,
      show pickupState.food = (⟨97.5, 50⟩ : Point) from rfl, ptDist_self]
    norm_num
  have h := C3_food_pickup demoDraws demoDraws pickupState rfl pickup_no_collide
  exact ⟨h.1, (h.2.1 hd).1, (h.2.1 hd).2⟩

theorem crash_hist : histAfterTail crashState = wrappedPos crashState :: crashTail :=
  histAfterTail_no_pop (by decide)

theorem crashState_collides :
    SelfCollide (wrappedPos crashState) (histAfterTail crashState) := by
  have hhd : wrappedPos crashState = ⟨97.5, 50⟩ := head_100_50 crashState rfl rfl rfl rfl rfl
  rw [crash_hist, hhd]
  refine ⟨15, ?_, ?_, ?_⟩
  · rw [show (((⟨97.5, 50⟩ : Point) :: crashTail).length) = 21 from rfl]
    decide
  · rw [show (((⟨97.5, 50⟩ : Point) :: crashTail).getD 15 ⟨0, 0⟩) = (⟨97.5, 50⟩ : Point) from rfl,
      ptDist_self]
    norm_num
  · rw [show (((⟨97.5, 50⟩ : Point) :: crashTail).getD 15 ⟨0, 0⟩) = (⟨97.5, 50⟩ : Point) from rfl,
      show (((⟨97.5, 50⟩ : Point) :: crashTail).getD (15 - 1) ⟨0, 0⟩) = (⟨97.5, 51⟩ : Point) from rfl,
      ptDist_vert, show (50:ℝ) - 51 = -1 by norm_num, abs_neg, abs_one]
    norm_num

/-- Witness for C4 on the crash state: the colliding tick restores the
start corner `(750, 570)` of the `800 × 600` viewport, the heading `π`, the
initial straight trail, score `0`, and clears the play flag. -/
theorem C4_collision_reset_witness :
    (tick demoDraws demoDraws crashState).pos = ⟨750, 570⟩ ∧
      (tick demoDraws demoDraws crashState).angle = π ∧
      (tick demoDraws demoDraws crashState).target = π ∧
      (tick demoDraws demoDraws crashState).hist = initTail ⟨750, 570⟩ ∧
      (tick demoDraws demoDraws crashState).score = 0 ∧
      (tick demoDraws demoDraws crashState).playing = false := by
  have h := C4_collision_reset demoDraws demoDraws crashState rfl
    (by norm_num : (0:ℝ) < 800) (by norm_num : (0:ℝ) < 600) crashState_collides
  have hpt : (⟨crashState.w - 50, crashState.h - 30⟩ : Point) = ⟨750, 570⟩ := by
    rw [Point.mk.injEq, show crashState.w = 800 from rfl, show crashState.h = 600 from rfl]
    norm_num
  rw [hpt] at h
  exact h

theorem jump_hist : histAfterTail jumpState = wrappedPos jumpState :: jumpTail :=
  histAfterTail_no_pop (by decide)

theorem jump_all_jumps :
    ∀ i ∈ sampleIdxs (histAfterTail jumpState).length,
      50 < ptDist ((histAfterTail jumpState).getD i ⟨0, 0⟩)
        ((histAfterTail jumpState).getD (i - 1) ⟨0, 0⟩) := by
  intro i hi
  rw [jump_hist, show ((wrappedPos jumpState :: jumpTail).length) = 17 from rfl,
    show sampleIdxs 17 = [15] from by decide] at hi
  have h15 : i = 15 := by simpa using hi
  subst h15
  rw [jump_hist,
    show ((wrappedPos jumpState :: jumpTail).getD 15 ⟨0, 0⟩) = (⟨97.5, 50⟩ : Point) from rfl,
    show ((wrappedPos jumpState :: jumpTail).getD (15 - 1) ⟨0, 0⟩) = (⟨97.5, 500⟩ : Point) from rfl,
    ptDist_vert, show (50:ℝ) - 500 = -450 by norm_num, abs_neg,
    abs_of_nonneg (by norm_num : (0:ℝ) ≤ 450)]
  norm_num

/-- Witness for C5 on the jump state: the only sampled point sits on the
head but its predecessor distance is 450, so no reset happens and the tick
keeps playing. -/
theorem C5_wrap_jump_excluded_witness :
    ¬SelfCollide (wrappedPos jumpState) (histAfterTail jumpState) ∧
      (tick demoDraws demoDraws jumpState).playing = true :=
  C5_wrap_jump_excluded demoDraws demoDraws jumpState rfl jump_all_jumps

/-- Witness for C7 at the wrap state: the head moves from `x = 799` to
`x = 801.5 = width + 1.5` and wraps to `0`. -/
theorem C7_wrap_witness : (wrappedPos wrapDemoState).x = 0 := by
  have hna : newAngle wrapDemoState = 0 := (newAngle_eq_self rfl).trans rfl
  have hm : (movedPos wrapDemoState).x = 800 + 1.5 := by
    show wrapDemoState.pos.x + Real.cos (newAngle wrapDemoState) * SPEED = 800 + 1.5
    rw [show wrapDemoState.pos = (⟨799, 10⟩ : Point) from rfl, hna, Real.cos_zero, SPEED]
    norm_num
  exact (C7_wrap wrapDemoState).2.2.2.2.2.2 1.5 (by norm_num)
    (by norm_num : (0:ℝ) ≤ 800) hm

/-- C8 is violated by the SnakeGame.tsx variant of the component: on the
self-collision path the frame callback returns right after `initGame(true)`
without scheduling the next frame, so the loop stops advancing — refuted
here at the concrete crash state.  (The sibling copy of the component has
no such early return and always falls through to the rescheduling call,
which is what the claim describes.) -/
theorem C8_reschedule_bug : ¬SchedulesNext crashState := fun h =>
  h rfl crashState_collides

/-- C10: `shuffleArray` returns a permutation of its input list — in
particular the result has the same length and the same multiset of elements
— for every stream of random draws. -/
theorem C10_shuffle_perm {α : Type*} (rands : ℕ → ℝ) (l : List α) :
    (shuffleArray rands l).Perm l ∧ (shuffleArray rands l).length = l.length :=
  ⟨shuffleGo_perm rands (l.length - 1) l,
    (shuffleGo_perm rands (l.length - 1) l).length_eq⟩

end Snake
